import Mathlib

/-!
Verification of the course-comparison extension's parsing and comparison core.

The TypeScript sources are embedded shallowly:
* JS strings become `Str := List Char`; JS `split`, `includes`, `trim`,
  template interpolation of numbers, etc. are modelled by executable
  functions below.
* The mutable tree of `buildHierarchyTree` becomes an index-based arena.
* JS `Array.prototype.sort` (stable per ES2019) is modelled by a stable
  insertion sort over the translated comparator.
-/

namespace CourseComp

abbrev Str := List Char

instance {ε α : Type} [DecidableEq ε] [DecidableEq α] : DecidableEq (Except ε α) :=
  fun x y =>
    match x, y with
    | .ok a, .ok b =>
      if h : a = b then isTrue (by rw [h]) else isFalse (fun hc => h (by injection hc))
    | .error a, .error b =>
      if h : a = b then isTrue (by rw [h]) else isFalse (fun hc => h (by injection hc))
    | .ok _, .error _ => isFalse (fun hc => Except.noConfusion hc)
    | .error _, .ok _ => isFalse (fun hc => Except.noConfusion hc)

/-- JS `s.split(sep)` for a single-character separator. -/
def splitOnChar (sep : Char) : Str → List Str
  | [] => [[]]
  | c :: cs =>
    if c = sep then [] :: splitOnChar sep cs
    else
      match splitOnChar sep cs with
      | [] => [[c]]
      | p :: ps => (c :: p) :: ps

/-- JS `Array.prototype.join(sep)` for a single-character separator. -/
def joinWith (sep : Char) : List Str → Str
  | [] => []
  | [p] => p
  | p :: q :: ps => p ++ sep :: joinWith sep (q :: ps)

/-- JS `haystack.includes(needle)`: substring containment. -/
def hasSub (needle : Str) : Str → Bool
  | [] => needle.isEmpty
  | c :: cs => needle.isPrefixOf (c :: cs) || hasSub needle cs

/-- Whitespace recognised by JS `trim` (the characters relevant here). -/
def jsWs (c : Char) : Bool :=
  c = ' ' || c = '\t' || c = '\n' || c = '\r' || c = '\x0b' || c = '\x0c'

/-- JS `s.trim()`. -/
def trimStr (s : Str) : Str :=
  ((s.dropWhile jsWs).reverse.dropWhile jsWs).reverse

/-- JS `s.toLowerCase()` (ASCII range, which is all the code relies on). -/
def toLowerStr (s : Str) : Str := s.map Char.toLower

/-- JS `s.toUpperCase()` (ASCII range). -/
def toUpperStr (s : Str) : Str := s.map Char.toUpper

def digitChar (d : Nat) : Char := Char.ofNat (d + 48)

def natDecGo : Nat → Nat → Str
  | 0, _ => []
  | fuel + 1, n =>
    if n < 10 then [digitChar n]
    else natDecGo fuel (n / 10) ++ [digitChar (n % 10)]

/-- Decimal rendering of a natural number, as JS template interpolation
produces for the array indices interpolated into synthesized ids.
The fuel `n + 1` always exceeds the number of digits. -/
def natDec (n : Nat) : Str := natDecGo (n + 1) n

/-! ## textParser.ts: parseText -/

/-- One parsed row of pasted text (`TextRow` in textParser.ts). -/
structure TextRow where
  title : Str
  type : Str
  id : Str
deriving DecidableEq, Repr

/-- JS `line.split(sep-regex-tab-plus)`: split on maximal runs of tabs.
A tab followed by another tab merely extends the current run. -/
def splitTabRuns : Str → List Str
  | [] => [[]]
  | c :: cs =>
    let r := splitTabRuns cs
    if c = '\t' then
      match cs with
      | c2 :: _ => if c2 = '\t' then r else [] :: r
      | [] => [] :: r
    else
      match r with
      | [] => [[c]]
      | p :: ps => (c :: p) :: ps

def splitSpaceAux : Str → Str → Bool → List Str
  | [], cur, _ => [cur]
  | c :: cs, cur, inRun =>
    if inRun && jsWs c then splitSpaceAux cs cur true
    else
      if jsWs c && (match cs with | c2 :: _ => jsWs c2 | [] => false)
      then cur :: splitSpaceAux cs [] true
      else splitSpaceAux cs (cur ++ [c]) false

/-- JS `line.split(sep-regex-two-or-more-spaces)`: split on maximal runs of
at least two whitespace characters; a lone whitespace character stays in
its field. -/
def splitSpaceRuns (l : Str) : List Str := splitSpaceAux l [] false

/-- Id synthesized for a 2-field pasted row at position `n` in the row
list so far (template `title-type-n` in parseText). -/
def synthId2 (title type : Str) (n : Nat) : Str :=
  title ++ '-' :: type ++ '-' :: natDec n

/-- Id synthesized for a 1-field pasted row at position `n` (template
`item-n` in parseText). -/
def synthId1 (n : Nat) : Str :=
  ('i' :: 't' :: 'e' :: 'm' :: ['-']) ++ natDec n

/-- Numeric value of a digit string (used to invert `natDec`). -/
def decVal (s : Str) : Nat := s.foldl (fun a c => a * 10 + (c.toNat - 48)) 0

/-- A row whose id has the synthesized shape for position `n`. -/
def Synthesized (r : TextRow) (n : Nat) : Prop :=
  r.id = synthId2 r.title r.type n ∨ r.id = synthId1 n

def c8wRows : List TextRow :=
  [⟨"A".toList, "Quiz".toList, "A-Quiz-0".toList⟩,
   ⟨"B".toList, "Quiz".toList, "B-Quiz-1".toList⟩]

/-- Field extraction for one pasted line: trim, split on tabs (or runs of
two-plus spaces when the line has no tab), trim the parts, drop empties. -/
def lineParts (rawLine : Str) : List Str :=
  (((if (trimStr rawLine).contains '\t' then splitTabRuns (trimStr rawLine)
      else splitSpaceRuns (trimStr rawLine))).map trimStr).filter
    (fun p => !p.isEmpty)

/-- The body of parseText's per-line loop: shape the fields of one line
into a `TextRow` appended to the accumulated rows (ids are synthesized
from `rows.length` for 1- and 2-field lines). -/
def stepRow (rows : List TextRow) (rawLine : Str) : List TextRow :=
  if (trimStr rawLine).isEmpty then rows
  else
    match lineParts rawLine with
    | t :: ty :: i :: _ => rows ++ [⟨t, ty, i⟩]
    | [t, ty] => rows ++ [⟨t, ty, synthId2 t ty rows.length⟩]
    | [t] => rows ++ [⟨t, "Unknown".toList, synthId1 rows.length⟩]
    | [] => rows

/-- parseText: split the pasted content into non-blank lines, skip a
header line containing "title", "type" and "id", shape each line. -/
def parseText (content : Str) : Except Str (List TextRow) :=
  let lines := (splitOnChar '\n' content).filter (fun l => !(trimStr l).isEmpty)
  if lines.isEmpty then Except.error "No data found in pasted text".toList
  else
    let firstLine := toLowerStr (lines.getD 0 [])
    let hasHeader :=
      hasSub "title".toList firstLine && hasSub "type".toList firstLine &&
        hasSub "id".toList firstLine
    let dataLines := if hasHeader then lines.drop 1 else lines
    Except.ok (dataLines.foldl stepRow [])

/-! ## Data model (types/index.ts) -/

inductive ImplementationModel | IC | CR | Honors
deriving DecidableEq, Repr

/-- Child record stored in a tree-derived lesson's metadata. -/
structure ChildRef where
  id : Str
  title : Str
  type : Str
deriving DecidableEq, Repr

/-- The open `metadata` map of a Lesson: either the shape produced by the
tree (pasted-text) builder or the shape produced by the CSV builder. -/
inductive LessonMeta
  | text (type unitTitle splitTitle originalId : Str) (children : List ChildRef)
      (parentUnit parentSplit : Option Str)
  | csv (unitTitle splitTitle edgeExLessonId alignmentIdentifier variantIdentifier : Str)
deriving DecidableEq, Repr

structure Lesson where
  id : Str
  title : Str
  order : Int
  variant : Option Str := none
  metadata : Option LessonMeta := none
deriving DecidableEq, Repr

structure HierarchyVersion where
  versionId : Str
  versionNumber : Str
  createdAt : Str
  isLatest : Bool
deriving DecidableEq, Repr

structure Hierarchy where
  id : Str
  courseId : Option Str
  name : Str
  type : Str
  implementationModel : Option ImplementationModel
  subject : Str
  versions : List HierarchyVersion
  currentVersion : Option HierarchyVersion
  lessons : List Lesson
deriving DecidableEq, Repr

/-- Implementation-model inference from a hierarchy name (shared by both
builders): case-insensitive containment or suffix of " IC", " CR",
" HON"/" HONORS", checked in that order. -/
def detectImplModel (name : Str) : Option ImplementationModel :=
  let nu := toUpperStr name
  if hasSub " IC".toList nu || " IC".toList.isSuffixOf nu then some .IC
  else if hasSub " CR".toList nu || " CR".toList.isSuffixOf nu then some .CR
  else if hasSub " HON".toList nu || hasSub " HONORS".toList nu
      || " HON".toList.isSuffixOf nu then some .Honors
  else none

/-- JS `\w` character class. -/
def wChar (c : Char) : Bool := c.isAlpha || ('0' ≤ c && c ≤ '9') || c = '_'

/-- JS `[A-Z]` character class. -/
def upChar (c : Char) : Bool := 'A' ≤ c && c ≤ 'Z'

/-- Try to match the course-id regex (one-plus uppercase letters, a dash,
one-plus word characters) anchored at the start of `s`. -/
def matchCourseIdAt (s : Str) : Option Str :=
  let ur := s.takeWhile upChar
  if ur.isEmpty then none
  else
    match s.drop ur.length with
    | '-' :: r2 =>
      let wr := r2.takeWhile wChar
      if wr.isEmpty then none else some (ur ++ '-' :: wr)
    | _ => none

/-- JS `name.match(course-id-regex)`: leftmost match. -/
def matchCourseId : Str → Option Str
  | [] => none
  | c :: cs =>
    match matchCourseIdAt (c :: cs) with
    | some m => some m
    | none => matchCourseId cs

/-! ## textParser.ts: buildHierarchyTree as an index-based arena

The source mutates `HierarchyNode` objects shared between `rootNodes` and
`nodeStack`; the embedding keeps every node in an arena (list indexed by
creation order) and lets `roots` and `stack` hold indices. -/

structure TNode where
  title : Str
  type : Str
  id : Str
  children : List Nat
  parent : Option Nat
deriving DecidableEq, Repr

instance : Inhabited TNode := ⟨⟨[], [], [], [], none⟩⟩

structure BState where
  arena : List TNode
  roots : List Nat
  stack : List Nat
deriving DecidableEq, Repr

/-- Type of the node an index points at. -/
def typeAt (arena : List TNode) (i : Nat) : Str := (arena.getD i default).type

/-- Append `n` as a child of node `p` (the `parent.children.push(node)`
mutation). -/
def attachChild (arena : List TNode) (p n : Nat) : List TNode :=
  arena.set p { arena.getD p default with children := (arena.getD p default).children ++ [n] }

/-- JS `nodeStack.findIndex` followed by `splice(i, 1)`. -/
def eraseFirstP (p : Nat → Bool) (l : List Nat) : List Nat :=
  match l.findIdx? p with
  | none => l
  | some i => l.take i ++ l.drop (i + 1)

/-- One iteration of buildHierarchyTree's `rows.forEach`. -/
def buildStep (s : BState) (row : TextRow) : BState :=
  let n := s.arena.length
  let node : TNode :=
    ⟨trimStr row.title, trimStr row.type, trimStr row.id, [], none⟩
  let isTy := fun (ty : Str) (i : Nat) => typeAt s.arena i == ty
  if node.type = "Split".toList then
    { arena := s.arena ++ [node], roots := s.roots ++ [n], stack := [n] }
  else if node.type = "Unit".toList then
    match s.stack.find? (isTy "Split".toList) with
    | some p =>
      let arena := attachChild (s.arena ++ [{ node with parent := some p }]) p n
      let stack :=
        match s.stack.find? (isTy "Split".toList) with
        | some sp => [sp, n]
        | none => [n]
      { arena := arena, roots := s.roots, stack := stack }
    | none =>
      { arena := s.arena ++ [node], roots := s.roots ++ [n], stack := [n] }
  else if node.type = "EdgeEx Lesson".toList then
    match (s.stack.find? (isTy "Unit".toList)).orElse
        (fun _ => s.stack.find? (isTy "Split".toList)) with
    | some p =>
      let arena := attachChild (s.arena ++ [{ node with parent := some p }]) p n
      { arena := arena, roots := s.roots,
        stack := eraseFirstP (isTy "EdgeEx Lesson".toList) s.stack ++ [n] }
    | none =>
      { arena := s.arena ++ [node], roots := s.roots ++ [n], stack := [n] }
  else if node.type = "Test".toList then
    match (s.stack.find? (isTy "Unit".toList)).orElse
        (fun _ => s.stack.find? (isTy "Split".toList)) with
    | some p =>
      let arena := attachChild (s.arena ++ [{ node with parent := some p }]) p n
      { arena := arena, roots := s.roots,
        stack := eraseFirstP (isTy "Test".toList) s.stack ++ [n] }
    | none =>
      { arena := s.arena ++ [node], roots := s.roots ++ [n], stack := [n] }
  else if node.type = "Exam".toList then
    match s.stack.find? (isTy "Split".toList) with
    | some p =>
      { arena := attachChild (s.arena ++ [{ node with parent := some p }]) p n,
        roots := s.roots, stack := s.stack }
    | none =>
      { arena := s.arena ++ [node], roots := s.roots ++ [n], stack := s.stack }
  else if node.type = "Activity".toList || node.type = "Quiz".toList then
    match (s.stack.find? (isTy "Test".toList)).orElse
        (fun _ => s.stack.find? (isTy "EdgeEx Lesson".toList)) with
    | some p =>
      { arena := attachChild (s.arena ++ [{ node with parent := some p }]) p n,
        roots := s.roots, stack := s.stack }
    | none =>
      match s.stack.find? (isTy "Unit".toList) with
      | some p =>
        { arena := attachChild (s.arena ++ [{ node with parent := some p }]) p n,
          roots := s.roots, stack := s.stack }
      | none =>
        { arena := s.arena ++ [node], roots := s.roots ++ [n], stack := s.stack }
  else
    match s.stack.getLast? with
    | some p =>
      { arena := attachChild (s.arena ++ [{ node with parent := some p }]) p n,
        roots := s.roots, stack := s.stack }
    | none =>
      { arena := s.arena ++ [node], roots := s.roots ++ [n], stack := s.stack }

/-- buildHierarchyTree: fold the rows through the stack machine. -/
def buildHierarchyTree (rows : List TextRow) : BState :=
  rows.foldl buildStep ⟨[], [], []⟩

/-- Witness state for the amended Test-context claim: a Split, a Unit and
a Test have been processed. -/
def c9wS : BState :=
  buildHierarchyTree
    [⟨"S".toList, "Split".toList, "s1".toList⟩,
     ⟨"U".toList, "Unit".toList, "u1".toList⟩,
     ⟨"T".toList, "Test".toList, "t1".toList⟩]

/-! ## textParser.ts: extractLessons / textRowsToHierarchy -/

/-- The recursion of `extractLessons` over the arena, threading the order
counter, the current split title and the current unit title.  `fuel`
only bounds the recursion (every child index exceeds its parent's index
and every node sits in exactly one child or root list, so
`arena.length + 1` is always enough); the threaded order counter makes
the produced order values consecutive for every fuel value. -/
def extractGo (arena : List TNode) :
    Nat → List Nat → Option Str → Option Str → Nat → List Lesson × Nat
  | 0, _, _, _, ord => ([], ord)
  | _ + 1, [], _, _, ord => ([], ord)
  | fuel + 1, i :: ns, split, unit, ord =>
    let node := arena.getD i default
    let r1 : List Lesson × Nat :=
      if node.type = "Split".toList then
        extractGo arena fuel node.children (some node.title) unit ord
      else if node.type = "Unit".toList then
        extractGo arena fuel node.children split (some node.title) ord
      else if node.type = "EdgeEx Lesson".toList || node.type = "Test".toList
          || node.type = "Exam".toList then
        let children := node.children.map (fun ci =>
          let child := arena.getD ci default
          ChildRef.mk child.id child.title child.type)
        ([{ id := node.id, title := node.title, order := Int.ofNat ord,
            variant := if node.type = "Test".toList then some "Test".toList
              else if node.type = "Exam".toList then some "Exam".toList else none,
            metadata := some (LessonMeta.text node.type (unit.getD [])
              (split.getD []) node.id children unit split) }], ord + 1)
      else
        extractGo arena fuel node.children split unit ord
    let r2 := extractGo arena fuel ns split unit r1.2
    (r1.1 ++ r2.1, r2.2)

/-- textRowsToHierarchy.  `uniqueSuffix` stands for the wall-clock and
random components of the synthesized hierarchy id and `createdAtStr` for
the version timestamp; both are injected so the rest stays pure. -/
def textRowsToHierarchy (rows : List TextRow) (hierarchyName : Str)
    (uniqueSuffix createdAtStr : Str) : Except Str Hierarchy :=
  if rows.isEmpty then Except.error "No data rows found in pasted text".toList
  else
    let st := buildHierarchyTree rows
    let name :=
      if hierarchyName.isEmpty || hierarchyName = "Pasted Course".toList then
        match rows.find? (fun r => r.type == "Split".toList) with
        | some firstSplit =>
          if hasSub "semester".toList (toLowerStr firstSplit.title) then
            "Pasted Course".toList
          else firstSplit.title
        | none => "Pasted Course".toList
      else hierarchyName
    let implementationModel := detectImplModel name
    let courseId := matchCourseId name
    let baseId :=
      match rows.find? (fun r => r.type == "Split".toList) with
      | some firstSplit => firstSplit.id
      | none => (rows.getD 0 ⟨[], [], []⟩).id
    let hierarchyId :=
      if baseId.isEmpty then "hierarchy-".toList ++ uniqueSuffix
      else baseId ++ '-' :: uniqueSuffix
    let lessons := (extractGo st.arena (st.arena.length + 1) st.roots none none 1).1
    let version : HierarchyVersion :=
      ⟨hierarchyId ++ "-v1".toList, "1.0".toList, createdAtStr, true⟩
    Except.ok
      { id := hierarchyId, courseId := courseId, name := name,
        type := "course".toList, implementationModel := implementationModel,
        subject := "Not Set Yet".toList, versions := [version],
        currentVersion := some version, lessons := lessons }

/-! ## csvParser.ts -/

structure CSVRow where
  hierarchyId : Str := []
  hierarchyName : Str := []
  splitTitle : Str := []
  unitTitle : Str := []
  edgeExLessonId : Str := []
  edgeExLessonTitle : Str := []
  alignmentIdentifier : Str := []
  variantIdentifier : Str := []
  subject : Str := []
  title : Str := []
  sourceOrder : Str := []
  extra : List (Str × Str) := []
deriving DecidableEq, Repr

/-- parseCSVLine's character scan: `acc` collects finished fields, `cur`
the current one, `inQ` the quote state.  A doubled quote inside quotes
emits a literal quote; a comma outside quotes ends the field. -/
def csvLineGo : Bool → Str → Str → List Str → List Str
  | _, [], cur, acc => acc ++ [cur]
  | true, '"' :: '"' :: cs, cur, acc => csvLineGo true cs (cur ++ ['"']) acc
  | true, '"' :: cs, cur, acc => csvLineGo false cs cur acc
  | false, '"' :: cs, cur, acc => csvLineGo true cs cur acc
  | false, ',' :: cs, cur, acc => csvLineGo false cs [] (acc ++ [cur])
  | inQ, c :: cs, cur, acc => csvLineGo inQ cs (cur ++ [c]) acc

def parseCSVLine (line : Str) : List Str := csvLineGo false line [] []

/-- The header-mapping `switch` of parseCSV's row loop. -/
def applyHeader (r : CSVRow) (header value : Str) : CSVRow :=
  if header = "Hierarchy ID".toList then { r with hierarchyId := value }
  else if header = "Hierarchy Name".toList then { r with hierarchyName := value }
  else if header = "Split Title".toList then { r with splitTitle := value }
  else if header = "Unit Title".toList then { r with unitTitle := value }
  else if header = "EdgeEx Lesson ID".toList then { r with edgeExLessonId := value }
  else if header = "EdgeEx Lesson Title".toList then { r with edgeExLessonTitle := value }
  else if header = "Alignment Identifier".toList then { r with alignmentIdentifier := value }
  else if header = "Variant Identifier".toList then { r with variantIdentifier := value }
  else if header = "Subject".toList then { r with subject := value }
  else if header = "Title".toList then { r with title := value }
  else if header = "Source Order".toList then { r with sourceOrder := value }
  else { r with extra := r.extra ++ [(header, value)] }

/-- Build one `CSVRow` from the header row and one line's values
(`headerRow.forEach` in parseCSV). -/
def buildRow (headerRow values : List Str) : CSVRow :=
  (List.range headerRow.length).foldl
    (fun r i => applyHeader r (trimStr (headerRow.getD i [])) (trimStr (values.getD i [])))
    {}

/-- The data-row loop below the header: drop all-blank lines, keep rows
that carry a hierarchy id. -/
def dataRows (headerRow : List Str) (rest : List Str) : List CSVRow :=
  rest.foldl
    (fun rows line =>
      let values := parseCSVLine line
      if values.isEmpty || values.all (fun v => (trimStr v).isEmpty) then rows
      else
        let row := buildRow headerRow values
        if row.hierarchyId.isEmpty then rows else rows ++ [row])
    []

/-- The header search of parseCSV: indices `0 ≤ i < min 5 lines.length`,
first line containing "Hierarchy ID". -/
def findHeaderIdx (lines : List Str) : Option Nat :=
  (List.range (min 5 lines.length)).find?
    (fun i => hasSub "Hierarchy ID".toList (lines.getD i []))

/-- parseCSV: non-blank lines, header search in the first five of them,
then the data-row loop. -/
def parseCSV (content : Str) : Except Str (List CSVRow) :=
  let lines := (splitOnChar '\n' content).filter (fun l => !(trimStr l).isEmpty)
  match findHeaderIdx lines with
  | none => Except.error "Could not find CSV header row".toList
  | some i => Except.ok (dataRows (parseCSVLine (lines.getD i [])) (lines.drop (i + 1)))

/-- JS `parseInt(s, 10)`: skip leading whitespace, optional sign, longest
digit run; NaN (here `none`) when no digit follows. -/
def parseIntJS (s : Str) : Option Int :=
  let t := s.dropWhile jsWs
  let (neg, digits) :=
    match t with
    | '-' :: r => (true, r.takeWhile (fun c => '0' ≤ c && c ≤ '9'))
    | '+' :: r => (false, r.takeWhile (fun c => '0' ≤ c && c ≤ '9'))
    | r => (false, r.takeWhile (fun c => '0' ≤ c && c ≤ '9'))
  if digits.isEmpty then none
  else
    let v : Nat := digits.foldl (fun a c => a * 10 + (c.toNat - 48)) 0
    some (if neg then -(v : Int) else (v : Int))

/-- JS `a || b` on strings: `b` when `a` is empty. -/
def strOr (a b : Str) : Str := if a.isEmpty then b else a

/-- The lesson identity key: alignment identifier, else variant
identifier, else EdgeEx lesson id. -/
def rowKey (row : CSVRow) : Str :=
  strOr row.alignmentIdentifier (strOr row.variantIdentifier row.edgeExLessonId)

/-- The Lesson built from a CSV row at 0-based input position `index`. -/
def mkCsvLesson (row : CSVRow) (index : Nat) : Lesson :=
  let lessonTitle :=
    strOr row.title (strOr row.edgeExLessonTitle ("Lesson ".toList ++ natDec (index + 1)))
  let order : Int :=
    if row.sourceOrder.isEmpty then Int.ofNat (index + 1)
    else
      match parseIntJS row.sourceOrder with
      | some p => p
      | none => Int.ofNat (index + 1)
  { id := rowKey row, title := lessonTitle, order := order,
    variant := if row.variantIdentifier.isEmpty then none else some row.variantIdentifier,
    metadata := some (LessonMeta.csv row.unitTitle row.splitTitle
      row.edgeExLessonId row.alignmentIdentifier row.variantIdentifier) }

/-- The insertion-ordered `lessonsMap` (a JS `Map`): first occurrence of a
key wins, later rows with the same key are ignored. -/
def lessonsMapGo (m : List (Str × Lesson)) : List CSVRow → Nat → List (Str × Lesson)
  | [], _ => m
  | row :: rest, index =>
    let k := rowKey row
    let m' := if m.any (fun p => p.1 == k) then m else m ++ [(k, mkCsvLesson row index)]
    lessonsMapGo m' rest (index + 1)

def buildLessonsMap (rows : List CSVRow) : List (Str × Lesson) :=
  lessonsMapGo [] rows 0

/-- Position-annotated first row carrying a given identity key (the
specification's "first such row"), used to state the keep-first dedup
policy. -/
def firstWithKey : List CSVRow → Nat → Str → Option (CSVRow × Nat)
  | [], _, _ => none
  | r :: rs, i, k => if rowKey r = k then some (r, i) else firstWithKey rs (i + 1) k

/-- Stable insertion step: place `a` before the first element it compares
less-or-equal to. -/
def insertSorted (le : α → α → Bool) (a : α) : List α → List α
  | [] => [a]
  | b :: bs => if le a b then a :: b :: bs else b :: insertSorted le a bs

/-- Stable sort (insertion sort), the model of JS `Array.prototype.sort`
with a consistent comparator (stable per ES2019). -/
def stableSortBy (le : α → α → Bool) (l : List α) : List α :=
  l.foldr (insertSorted le) []

/-- The final `forEach` renumbering orders densely from `start + 1`. -/
def renumber : List Lesson → Nat → List Lesson
  | [], _ => []
  | l :: ls, i => { l with order := Int.ofNat (i + 1) } :: renumber ls (i + 1)

/-- csvRowsToHierarchy.  `createdAtStr` is the injected version
timestamp. -/
def csvRowsToHierarchy (rows : List CSVRow) (createdAtStr : Str) :
    Except Str Hierarchy :=
  if rows.isEmpty then Except.error "No data rows found in CSV".toList
  else
    let firstRow := rows.getD 0 {}
    let hierarchyId := firstRow.hierarchyId
    let hierarchyName := firstRow.hierarchyName
    let subject := strOr firstRow.subject "Not Set Yet".toList
    let implementationModel := detectImplModel hierarchyName
    let courseId := matchCourseId hierarchyName
    let lessons0 := (buildLessonsMap rows).map Prod.snd
    let lessons :=
      renumber (stableSortBy (fun a b => decide (a.order ≤ b.order)) lessons0) 0
    let version : HierarchyVersion :=
      ⟨hierarchyId ++ "-v1".toList, "1.0".toList, createdAtStr, true⟩
    Except.ok
      { id := hierarchyId, courseId := courseId, name := hierarchyName,
        type := "course".toList, implementationModel := implementationModel,
        subject := subject, versions := [version],
        currentVersion := some version, lessons := lessons }

/-! ## LessonComparisonView: lesson alignment -/

def lessonWord : Str := "lesson".toList
def newMarker : Str := "-new-".toList
def newPre : Str := "new-".toList

/-- `lessonId.split('-')` has at least three parts and the second is
"lesson" (the guard of getBaseLessonId's first branch). -/
def lessonPattern (lessonId : Str) : Bool :=
  match splitOnChar '-' lessonId with
  | _ :: p1 :: _ :: _ => p1 == lessonWord
  | _ => false

/-- getBaseLessonId: strip a leading hierarchy prefix from
`prefix-lesson-rest` ids; otherwise ids containing "-new-" are rewritten
with a leading "new-"; otherwise the id is returned unchanged. -/
def getBaseLessonId (lessonId : Str) : Str :=
  if lessonPattern lessonId then joinWith '-' ((splitOnChar '-' lessonId).drop 1)
  else if hasSub newMarker lessonId then newPre ++ lessonId
  else lessonId

/-- findMatchingLesson: exact id, then base id, then exact title. -/
def findMatchingLesson (anchorLesson : Lesson) (comparedLessons : List Lesson) :
    Option Lesson :=
  match comparedLessons.find? (fun l => l.id == anchorLesson.id) with
  | some exactMatch => some exactMatch
  | none =>
    let baseId := getBaseLessonId anchorLesson.id
    match comparedLessons.find? (fun l => getBaseLessonId l.id == baseId) with
    | some matchById => some matchById
    | none => comparedLessons.find? (fun l => l.title == anchorLesson.title)

inductive CompStatus | same | removed | added | orderChanged
deriving DecidableEq, Repr

structure LessonComparison where
  anchorLesson : Option Lesson
  comparedLesson : Option Lesson
  status : CompStatus
  anchorOrder : Int
  comparedOrder : Option Int
deriving DecidableEq, Repr

/-- The comparison row generated for one anchor lesson. -/
def anchorRowOf (comparedLessons : List Lesson) (a : Lesson) : LessonComparison :=
  match findMatchingLesson a comparedLessons with
  | some m =>
    ⟨some a, some m, if a.order = m.order then .same else .orderChanged,
      a.order, some m.order⟩
  | none => ⟨some a, none, .removed, a.order, none⟩

/-- The `matchedComparedIds` set update (a JS `Set`). -/
def addId (ids : List Str) (i : Str) : List Str :=
  if i ∈ ids then ids else ids ++ [i]

/-- First pass of generateLessonComparisons: one row per anchor lesson,
collecting the matched compared ids. -/
def phase1 (anchorLessons comparedLessons : List Lesson) :
    List LessonComparison × List Str :=
  anchorLessons.foldl
    (fun acc a =>
      match findMatchingLesson a comparedLessons with
      | some m => (acc.1 ++ [anchorRowOf comparedLessons a], addId acc.2 m.id)
      | none => (acc.1 ++ [anchorRowOf comparedLessons a], acc.2))
    ([], [])

/-- Second pass: compared lessons whose id was never matched become
`added` rows. -/
def phase2 (comparedLessons : List Lesson) (matchedIds : List Str) :
    List LessonComparison :=
  comparedLessons.filterMap (fun c =>
    if c.id ∈ matchedIds then none
    else some ⟨none, some c, .added, 0, some c.order⟩)

/-- The main sort comparator (anchor order, then compared order with null
as 0) as a less-or-equal test. -/
def compLe (a b : LessonComparison) : Bool :=
  if a.anchorOrder ≠ b.anchorOrder then decide (a.anchorOrder ≤ b.anchorOrder)
  else decide (a.comparedOrder.getD 0 ≤ b.comparedOrder.getD 0)

/-- The added-lessons sort comparator as a less-or-equal test. -/
def addLe (a b : LessonComparison) : Bool :=
  decide (a.comparedOrder.getD 0 ≤ b.comparedOrder.getD 0)

/-- `take n ++ a :: drop n`, the effect of JS `splice(n, 0, a)`. -/
def insertAt (n : Nat) (a : α) (l : List α) : List α :=
  l.take n ++ a :: l.drop n

/-- Insert one added row before the first entry whose non-null compared
order exceeds the added row's compared order, else append. -/
def insertAdded (comparisons : List LessonComparison) (addedLesson : LessonComparison) :
    List LessonComparison :=
  let addedOrder := addedLesson.comparedOrder.getD 0
  match comparisons.findIdx? (fun comp =>
      match comp.comparedOrder with
      | none => false
      | some o => decide (addedOrder < o)) with
  | none => comparisons ++ [addedLesson]
  | some i => insertAt i addedLesson comparisons

/-- The matched/removed rows after the main sort. -/
def sortedMatched (anchorLessons comparedLessons : List Lesson) :
    List LessonComparison :=
  stableSortBy compLe (phase1 anchorLessons comparedLessons).1

/-- generateLessonComparisons: sort the anchor-aligned rows, then splice
each added row (in compared order) into position. -/
def generateLessonComparisons (anchorLessons comparedLessons : List Lesson) :
    List LessonComparison :=
  let added := phase2 comparedLessons (phase1 anchorLessons comparedLessons).2
  (stableSortBy addLe added).foldl insertAdded
    (sortedMatched anchorLessons comparedLessons)

/-- Ids of the compared lessons matched by the anchor pass, in anchor
order and with multiplicity. -/
def matchedIdsOf (A C : List Lesson) : List Str :=
  A.filterMap (fun a => (findMatchingLesson a C).map Lesson.id)

/-- Witness inputs for the amended coverage equations. -/
def c3wA : List Lesson := [⟨"x".toList, "X".toList, 1, none, none⟩]
def c3wC : List Lesson :=
  [⟨"x".toList, "X".toList, 1, none, none⟩, ⟨"y".toList, "Y".toList, 2, none, none⟩]

/-- Recursive form of `insertAdded` (insert before the first entry whose
non-null compared order exceeds the added row's). -/
def insertRec (x : LessonComparison) : List LessonComparison → List LessonComparison
  | [] => [x]
  | b :: bs =>
    if (match b.comparedOrder with
        | none => false
        | some o => decide (x.comparedOrder.getD 0 < o)) = true
    then x :: b :: bs
    else b :: insertRec x bs

/-- Witness inputs for the amended monotonicity claim. -/
def c4wA : List Lesson := [⟨"x".toList, "X".toList, 1, none, none⟩]
def c4wC : List Lesson :=
  [⟨"x".toList, "X".toList, 1, none, none⟩, ⟨"y".toList, "Y".toList, 2, none, none⟩]

/-! ## Counting and monotonicity vocabulary for the alignment -/

def isMatchedRow (c : LessonComparison) : Bool :=
  c.status == .same || c.status == .orderChanged

def isRemovedRow (c : LessonComparison) : Bool := c.status == .removed

def isAddedRow (c : LessonComparison) : Bool := c.status == .added

/-- The displayed compared-side orders of an alignment sequence. -/
def comparedOrds (l : List LessonComparison) : List Int :=
  l.filterMap LessonComparison.comparedOrder

/-- The compared-side order sequence is nondecreasing. -/
def MonoOrds (l : List LessonComparison) : Prop :=
  List.Pairwise (· ≤ ·) (comparedOrds l)

/-- Dense 1..N order values. -/
def ordersDense (ls : List Lesson) : Prop :=
  ls.map Lesson.order = (List.range' 1 ls.length).map Int.ofNat

/-! ## Concrete inputs used by the closed theorems -/

namespace Ex

/-- The row sequence of the tree-nesting example. -/
def c1rows : List TextRow :=
  [⟨"Semester A".toList, "Split".toList, "s1".toList⟩,
   ⟨"Unit 1".toList, "Unit".toList, "u1".toList⟩,
   ⟨"L1".toList, "EdgeEx Lesson".toList, "l1".toList⟩,
   ⟨"Q1".toList, "Quiz".toList, "q1".toList⟩,
   ⟨"T1".toList, "Test".toList, "t1".toList⟩,
   ⟨"QT1".toList, "Quiz".toList, "qt1".toList⟩]

def c1lessonL1 : Lesson :=
  { id := "l1".toList, title := "L1".toList, order := 1, variant := none,
    metadata := some (LessonMeta.text "EdgeEx Lesson".toList "Unit 1".toList
      "Semester A".toList "l1".toList
      [⟨"q1".toList, "Q1".toList, "Quiz".toList⟩]
      (some "Unit 1".toList) (some "Semester A".toList)) }

def c1lessonT1 : Lesson :=
  { id := "t1".toList, title := "T1".toList, order := 2,
    variant := some "Test".toList,
    metadata := some (LessonMeta.text "Test".toList "Unit 1".toList
      "Semester A".toList "t1".toList
      [⟨"qt1".toList, "QT1".toList, "Quiz".toList⟩]
      (some "Unit 1".toList) (some "Semester A".toList)) }

/-- Anchor lesson whose id contains the "-new-" marker and also matches
the prefix-lesson pattern. -/
def c2anchor : Lesson := ⟨"ic-lesson-new-5".toList, "Alpha".toList, 1, none, none⟩

def c2compared : Lesson := ⟨"cr-lesson-new-5".toList, "Beta".toList, 1, none, none⟩

def c3a1 : Lesson := ⟨"a1".toList, "T".toList, 1, none, none⟩
def c3a2 : Lesson := ⟨"a2".toList, "T".toList, 2, none, none⟩
def c3c1 : Lesson := ⟨"c1".toList, "T".toList, 1, none, none⟩

def c4ax : Lesson := ⟨"x".toList, "X".toList, 1, none, none⟩
def c4ay : Lesson := ⟨"y".toList, "Y".toList, 2, none, none⟩
def c4cx : Lesson := ⟨"x".toList, "X".toList, 2, none, none⟩
def c4cy : Lesson := ⟨"y".toList, "Y".toList, 1, none, none⟩

/-- Pasted text whose first (2-field) line synthesizes the id
"A-Quiz-0" while the second line supplies the same id literally. -/
def c8content : Str := "A\tQuiz\nX\tY\tA-Quiz-0".toList

/-- A Test row with no Split or Unit context, then a lesson, then a
quiz. -/
def c9rows : List TextRow :=
  [⟨"T1".toList, "Test".toList, "t1".toList⟩,
   ⟨"L1".toList, "EdgeEx Lesson".toList, "l1".toList⟩,
   ⟨"Q1".toList, "Quiz".toList, "q1".toList⟩]

/-- Witness anchor for the amended marker rule: its id contains "-new-"
and does not match the prefix-lesson pattern. -/
def w2a : Lesson := ⟨"cr-new-5".toList, "Gamma".toList, 1, none, none⟩

def w2c : Lesson := ⟨"zz-9".toList, "Gamma".toList, 3, none, none⟩

def c5textRows : List TextRow := [⟨"L".toList, "EdgeEx Lesson".toList, "l1".toList⟩]

def c5ver : HierarchyVersion :=
  ⟨"l1-s-v1".toList, "1.0".toList, "t".toList, true⟩

def c5textH : Hierarchy :=
  { id := "l1-s".toList, courseId := none, name := "N".toList,
    type := "course".toList, implementationModel := none,
    subject := "Not Set Yet".toList, versions := [c5ver],
    currentVersion := some c5ver,
    lessons := [⟨"l1".toList, "L".toList, 1, none,
      some (.text "EdgeEx Lesson".toList [] [] "l1".toList [] none none)⟩] }

def c5csvRows : List CSVRow := [{ hierarchyId := "H1".toList }]

def c5csvVer : HierarchyVersion :=
  ⟨"H1-v1".toList, "1.0".toList, "t".toList, true⟩

def c5csvH : Hierarchy :=
  { id := "H1".toList, courseId := none, name := [],
    type := "course".toList, implementationModel := none,
    subject := "Not Set Yet".toList, versions := [c5csvVer],
    currentVersion := some c5csvVer,
    lessons := [⟨[], "Lesson 1".toList, 1, none, some (.csv [] [] [] [] [])⟩] }

end Ex

end CourseComp

namespace CourseComp

/-- C1: processing the six-row Split/Unit/Lesson/Quiz/Test/Quiz sequence
through the pasted-text tree builder extracts exactly the lessons L1
(order 1, children [Q1]) and T1 (order 2, children [QT1]), both carrying
unitTitle "Unit 1" and splitTitle "Semester A". -/
theorem c1_tree_nesting :
    (textRowsToHierarchy Ex.c1rows "Pasted Course".toList "sfx".toList
        "ts".toList).map Hierarchy.lessons =
      Except.ok [Ex.c1lessonL1, Ex.c1lessonT1] := by
  decide

/-! ### Helper lemmas -/

theorem lineParts_of_trim_empty (rawLine : Str) (h : trimStr rawLine = []) :
    lineParts rawLine = [] := by
  unfold lineParts
  rw [h]
  rfl

/-- C10: a pasted line with at least four fields yields the row built
from the first three fields only; the rest of the fields are dropped
without affecting the result. -/
theorem c10_extra_fields_dropped (rows : List TextRow) (rawLine : Str)
    (h4 : 4 ≤ (lineParts rawLine).length) :
    stepRow rows rawLine =
      rows ++ [⟨(lineParts rawLine).getD 0 [], (lineParts rawLine).getD 1 [],
        (lineParts rawLine).getD 2 []⟩] := by
  unfold stepRow
  rcases he : (trimStr rawLine).isEmpty with _ | _
  · simp only [Bool.false_eq_true, if_false]
    rcases hp : lineParts rawLine with _ | ⟨a, _ | ⟨b, _ | ⟨c, rest⟩⟩⟩ <;>
      simp_all
  · exfalso
    rw [lineParts_of_trim_empty rawLine (List.isEmpty_iff.mp he)] at h4
    simp at h4

/-- C10 witness: a concrete five-field line. -/
theorem c10_extra_fields_dropped_witness :
    4 ≤ (lineParts "a\tb\tc\td\te".toList).length ∧
      stepRow [] "a\tb\tc\td\te".toList =
        [] ++ [⟨(lineParts "a\tb\tc\td\te".toList).getD 0 [],
          (lineParts "a\tb\tc\td\te".toList).getD 1 [],
          (lineParts "a\tb\tc\td\te".toList).getD 2 []⟩] :=
  ⟨by decide, c10_extra_fields_dropped [] "a\tb\tc\td\te".toList (by decide)⟩

theorem findHeaderIdx_eq (lines : List Str) :
    findHeaderIdx lines =
      (lines.take 5).findIdx? (fun l => hasSub "Hierarchy ID".toList l) := by
  rw [findHeaderIdx]
  generalize "Hierarchy ID".toList = needle
  generalize hk : 5 = k
  clear hk
  induction lines generalizing k with
  | nil => simp
  | cons a l ih =>
    cases k with
    | zero => simp
    | succ k =>
      have hmin : min (k + 1) (a :: l).length = (min k l.length) + 1 := by
        simp [Nat.succ_min_succ]
      rw [hmin, List.range_succ_eq_map, List.take_succ_cons]
      rw [List.find?_cons, List.findIdx?_cons]
      cases hpa : hasSub needle a with
      | false =>
        simp only [List.getD_cons_zero] at *
        rw [hpa]
        simp only [Function.comp_def, List.getD_cons_succ, List.find?_map]
        rw [ih k, List.findIdx?_succ]
        cases hfi : (l.take k).findIdx? (fun l => hasSub needle l) with
        | none => simp [hfi]
        | some j => simp [hfi]
      | true => simp [List.getD_cons_zero, hpa]

/-- C7: parseCSV scans only the first five non-blank lines for the
literal "Hierarchy ID"; the first such line becomes the header row, and
with none in that window the parse returns an error and no rows. -/
theorem c7_header_window (content : Str) :
    parseCSV content =
      match ((splitOnChar '\n' content).filter (fun l => !(trimStr l).isEmpty)).take 5
          |>.findIdx? (fun l => hasSub "Hierarchy ID".toList l) with
      | none => Except.error "Could not find CSV header row".toList
      | some i =>
        Except.ok (dataRows
          (parseCSVLine (((splitOnChar '\n' content).filter
            (fun l => !(trimStr l).isEmpty)).getD i []))
          (((splitOnChar '\n' content).filter (fun l => !(trimStr l).isEmpty)).drop
            (i + 1))) := by
  unfold parseCSV
  simp only []
  rw [findHeaderIdx_eq]

/-- C2 counterexample: the anchor id "ic-lesson-new-5" contains the
"-new-" marker yet is not rewritten (the prefix-lesson pattern is
checked first), so it base-id-matches the distinct compared id
"cr-lesson-new-5" — with distinct titles, so the match is not the title
fallback. -/
theorem c2_marker_not_always_rewritten :
    hasSub newMarker Ex.c2anchor.id = true ∧
    Ex.c2anchor.id ≠ Ex.c2compared.id ∧
    Ex.c2anchor.title ≠ Ex.c2compared.title ∧
    getBaseLessonId Ex.c2anchor.id = getBaseLessonId Ex.c2compared.id ∧
    findMatchingLesson Ex.c2anchor [Ex.c2compared] = some Ex.c2compared := by
  decide


theorem splitOnChar_ne_nil (sep : Char) (l : Str) : splitOnChar sep l ≠ [] := by
  induction l with
  | nil => simp [splitOnChar]
  | cons c cs ih =>
    rw [splitOnChar]
    split
    · simp
    · cases h : splitOnChar sep cs with
      | nil => exact absurd h ih
      | cons p ps => simp

theorem splitOnChar_cons_ne (sep c : Char) (l : Str) (h : c ≠ sep) :
    splitOnChar sep (c :: l) =
      match splitOnChar sep l with
      | [] => [[c]]
      | p :: ps => (c :: p) :: ps := by
  rw [splitOnChar, if_neg h]

theorem splitOnChar_newPre (x : Str) :
    splitOnChar '-' (newPre ++ x) = "new".toList :: splitOnChar '-' x := by
  obtain ⟨p, ps, hps⟩ : ∃ p ps, splitOnChar '-' x = p :: ps := by
    cases h : splitOnChar '-' x with
    | nil => exact absurd h (splitOnChar_ne_nil _ _)
    | cons p ps => exact ⟨p, ps, rfl⟩
  show splitOnChar '-' ('n' :: 'e' :: 'w' :: '-' :: x) = _
  rw [splitOnChar_cons_ne _ _ _ (by decide), splitOnChar_cons_ne _ _ _ (by decide),
    splitOnChar_cons_ne _ _ _ (by decide),
    show splitOnChar '-' ('-' :: x) = [] :: splitOnChar '-' x from by
      rw [splitOnChar]; simp]
  rw [hps]
  rfl

theorem hasSub_append_left (n p x : Str) (h : hasSub n x = true) :
    hasSub n (p ++ x) = true := by
  induction p with
  | nil => simpa
  | cons c cs ih =>
    show hasSub n (c :: (cs ++ x)) = true
    rw [hasSub]
    simp [ih]

theorem lessonPattern_base (y : Str) (h : lessonPattern y = true) :
    ∃ t, getBaseLessonId y = lessonWord ++ '-' :: t := by
  rw [lessonPattern] at h
  rw [getBaseLessonId, if_pos]
  · rcases hs : splitOnChar '-' y with _ | ⟨p0, _ | ⟨p1, ps⟩⟩
    · exact absurd hs (splitOnChar_ne_nil _ _)
    · rw [hs] at h; simp at h
    · rw [hs] at h
      rcases ps with _ | ⟨p2, ps⟩
      · simp at h
      · simp only [beq_iff_eq] at h
        subst h
        exact ⟨joinWith '-' (p2 :: ps), by simp [List.drop, joinWith]⟩
  · rw [lessonPattern]
    exact h

/-- Core of the "-new-" rule: an id that contains the marker and does not
match the prefix-lesson pattern is rewritten to `new-` ++ id, and that
value differs from the base id of every other id. -/
theorem newMarker_base_unique (x y : Str) (hm : hasSub newMarker x = true)
    (hp : lessonPattern x = false) (hne : y ≠ x) :
    getBaseLessonId y ≠ getBaseLessonId x := by
  have hbx : getBaseLessonId x = newPre ++ x := by
    rw [getBaseLessonId, if_neg (by simp [hp]), if_pos hm]
  rw [hbx]
  intro heq
  by_cases hpy : lessonPattern y = true
  · obtain ⟨t, ht⟩ := lessonPattern_base y hpy
    rw [ht] at heq
    have h2 := congrArg (fun l => l.headI) heq
    simp [lessonWord, newPre] at h2
  · by_cases hmy : hasSub newMarker y = true
    · have hby : getBaseLessonId y = newPre ++ y := by
        rw [getBaseLessonId, if_neg (by simp [hpy]), if_pos hmy]
      rw [hby] at heq
      exact hne (List.append_cancel_left heq)
    · have hby : getBaseLessonId y = y := by
        rw [getBaseLessonId, if_neg (by simp [hpy]), if_neg (by simp [hmy])]
      rw [hby] at heq
      have : hasSub newMarker y = true := by
        rw [heq]
        exact hasSub_append_left _ _ _ hm
      simp [this] at hmy

/-- C2 (amended): matching precedes by exact id, then base id, then exact
title; an id containing "-new-" that does not match the prefix-lesson
pattern is rewritten so that, absent an exact id match, the base-id path
finds nothing and the title fallback is still consulted. -/
theorem c2_amended :
    (∀ (a : Lesson) (ls : List Lesson),
        findMatchingLesson a ls =
          match ls.find? (fun l => l.id == a.id) with
          | some m => some m
          | none =>
            match ls.find? (fun l =>
                getBaseLessonId l.id == getBaseLessonId a.id) with
            | some m => some m
            | none => ls.find? (fun l => l.title == a.title)) ∧
    (∀ (a : Lesson) (ls : List Lesson),
        hasSub newMarker a.id = true → lessonPattern a.id = false →
        (∀ l ∈ ls, l.id ≠ a.id) →
        findMatchingLesson a ls = ls.find? (fun l => l.title == a.title)) := by
  constructor
  · intro a ls
    rfl
  · intro a ls hm hp hne
    rw [findMatchingLesson]
    have hex : ls.find? (fun l => l.id == a.id) = none := by
      rw [List.find?_eq_none]
      intro l hl
      simp [hne l hl]
    have hbase : ls.find? (fun l =>
        getBaseLessonId l.id == getBaseLessonId a.id) = none := by
      rw [List.find?_eq_none]
      intro l hl
      simp [newMarker_base_unique a.id l.id hm hp (hne l hl)]
    rw [hex]
    show (match List.find? (fun l =>
        getBaseLessonId l.id == getBaseLessonId a.id) ls with
      | some matchById => some matchById
      | none => List.find? (fun l => l.title == a.title) ls) =
      List.find? (fun l => l.title == a.title) ls
    rw [hbase]

/-- C2 witness: a marker-carrying anchor id that is not of prefix-lesson
shape falls through to the title fallback. -/
theorem c2_amended_witness :
    hasSub newMarker Ex.w2a.id = true ∧ lessonPattern Ex.w2a.id = false ∧
      findMatchingLesson Ex.w2a [Ex.w2c] =
        [Ex.w2c].find? (fun l => l.title == Ex.w2a.title) :=
  ⟨by decide, by decide,
    c2_amended.2 Ex.w2a [Ex.w2c] (by decide) (by decide) (by decide)⟩

/-- C3 counterexample: two anchor lessons title-match the same compared
lesson, so matched rows (2) plus added rows (0) exceed the single
compared lesson. -/
theorem c3_added_count_equation_fails :
    (generateLessonComparisons [Ex.c3a1, Ex.c3a2] [Ex.c3c1]).countP isMatchedRow +
        (generateLessonComparisons [Ex.c3a1, Ex.c3a2] [Ex.c3c1]).countP isAddedRow ≠
      [Ex.c3c1].length := by
  decide

/-- C4 counterexample: with cross-matched orders and no added lessons the
displayed compared-side orders are [2, 1], which is not monotonic. -/
theorem c4_displayed_order_not_monotonic :
    comparedOrds (generateLessonComparisons [Ex.c4ax, Ex.c4ay] [Ex.c4cx, Ex.c4cy]) = [2, 1] ∧
    ¬ MonoOrds (generateLessonComparisons [Ex.c4ax, Ex.c4ay] [Ex.c4cx, Ex.c4cy]) := by
  constructor
  · decide
  · intro h
    rw [MonoOrds] at h
    have h2 : comparedOrds (generateLessonComparisons [Ex.c4ax, Ex.c4ay]
        [Ex.c4cx, Ex.c4cy]) = [2, 1] := by decide
    rw [h2] at h
    have := List.rel_of_pairwise_cons h (List.mem_singleton.mpr rfl)
    omega

/-- C8 counterexample: the 2-field first line synthesizes the id
"A-Quiz-0", which collides with the literal id of the 3-field second
line in the same parse. -/
theorem c8_synth_id_collides_with_real_id :
    parseText Ex.c8content =
      Except.ok [⟨"A".toList, "Quiz".toList, synthId2 "A".toList "Quiz".toList 0⟩,
        ⟨"X".toList, "Y".toList, "A-Quiz-0".toList⟩] ∧
    synthId2 "A".toList "Quiz".toList 0 = "A-Quiz-0".toList := by
  decide

theorem dense_combine (p q : List Lesson × Nat) (ord : Nat)
    (hp2 : p.2 = ord + p.1.length)
    (hpm : p.1.map Lesson.order = (List.range' ord p.1.length).map Int.ofNat)
    (hq2 : q.2 = p.2 + q.1.length)
    (hqm : q.1.map Lesson.order = (List.range' p.2 q.1.length).map Int.ofNat) :
    q.2 = ord + (p.1 ++ q.1).length ∧
      (p.1 ++ q.1).map Lesson.order =
        (List.range' ord (p.1 ++ q.1).length).map Int.ofNat := by
  constructor
  · simp [hq2, hp2]; omega
  · rw [List.map_append, hpm, hqm, hp2, List.length_append]
    rw [← List.map_append,
      show ord + p.1.length = ord + 1 * p.1.length by omega, List.range'_append,
      Nat.add_comm q.1.length p.1.length]

theorem extractGo_dense (arena : List TNode) (fuel : Nat) :
    ∀ (ns : List Nat) (split unit : Option Str) (ord : Nat),
      (extractGo arena fuel ns split unit ord).2 =
          ord + (extractGo arena fuel ns split unit ord).1.length ∧
        (extractGo arena fuel ns split unit ord).1.map Lesson.order =
          (List.range' ord (extractGo arena fuel ns split unit ord).1.length).map
            Int.ofNat := by
  induction fuel with
  | zero => intro ns split unit ord; simp [extractGo]
  | succ fuel ih =>
    intro ns split unit ord
    cases ns with
    | nil => simp [extractGo]
    | cons i ns =>
      rw [extractGo]
      simp only []
      split
      · exact dense_combine _ _ ord (ih _ _ _ _).1 (ih _ _ _ _).2 (ih _ _ _ _).1
          (ih _ _ _ _).2
      · split
        · exact dense_combine _ _ ord (ih _ _ _ _).1 (ih _ _ _ _).2 (ih _ _ _ _).1
            (ih _ _ _ _).2
        · split
          · refine dense_combine _ _ ord ?_ ?_ (ih _ _ _ _).1 (ih _ _ _ _).2
            · simp
            · simp [List.range']
          · exact dense_combine _ _ ord (ih _ _ _ _).1 (ih _ _ _ _).2 (ih _ _ _ _).1
              (ih _ _ _ _).2

theorem renumber_dense :
    ∀ (ls : List Lesson) (i : Nat),
      (renumber ls i).map Lesson.order =
          (List.range' (i + 1) ls.length).map Int.ofNat ∧
        (renumber ls i).length = ls.length := by
  intro ls
  induction ls with
  | nil => intro i; simp [renumber]
  | cons l ls ih =>
    intro i
    obtain ⟨h1, h2⟩ := ih (i + 1)
    refine ⟨?_, by simp [renumber, h2]⟩
    simp only [renumber, List.map_cons, List.length_cons, List.range'_succ]
    rw [h1]

/-- C5: every hierarchy either builder returns carries lesson orders that
are exactly 1..N, with N the lesson count. -/
theorem c5_order_density :
    (∀ (rows : List TextRow) (hierarchyName uniqueSuffix createdAtStr : Str)
        (h : Hierarchy),
        textRowsToHierarchy rows hierarchyName uniqueSuffix createdAtStr =
            Except.ok h →
          ordersDense h.lessons) ∧
    (∀ (rows : List CSVRow) (createdAtStr : Str) (h : Hierarchy),
        csvRowsToHierarchy rows createdAtStr = Except.ok h →
          ordersDense h.lessons) := by
  constructor
  · intro rows hierarchyName uniqueSuffix createdAtStr h hok
    unfold textRowsToHierarchy at hok
    split at hok
    · exact absurd hok (by simp)
    · simp only [Except.ok.injEq] at hok
      subst hok
      exact (extractGo_dense _ _ _ _ _ 1).2
  · intro rows createdAtStr h hok
    unfold csvRowsToHierarchy at hok
    split at hok
    · exact absurd hok (by simp)
    · simp only [Except.ok.injEq] at hok
      subst hok
      show ordersDense (renumber _ 0)
      have := renumber_dense
        (stableSortBy (fun a b => decide (a.order ≤ b.order))
          ((buildLessonsMap rows).map Prod.snd)) 0
      rw [ordersDense, this.2, this.1]

/-- C5 witness: a one-lesson pasted hierarchy and a one-row CSV
hierarchy, with dense orders. -/
theorem c5_order_density_witness :
    (textRowsToHierarchy Ex.c5textRows "N".toList "s".toList "t".toList =
        Except.ok Ex.c5textH ∧ ordersDense Ex.c5textH.lessons) ∧
      (csvRowsToHierarchy Ex.c5csvRows "t".toList = Except.ok Ex.c5csvH ∧
        ordersDense Ex.c5csvH.lessons) :=
  ⟨⟨by decide, c5_order_density.1 Ex.c5textRows "N".toList "s".toList "t".toList
      Ex.c5textH (by decide)⟩,
    ⟨by decide, c5_order_density.2 Ex.c5csvRows "t".toList Ex.c5csvH (by decide)⟩⟩


theorem lessonsMapGo_filter (k : Str) :
    ∀ (rows : List CSVRow) (idx : Nat) (m : List (Str × Lesson)),
      (lessonsMapGo m rows idx).filter (fun p => p.1 == k) =
        if m.any (fun p => p.1 == k) then m.filter (fun p => p.1 == k)
        else
          match firstWithKey rows idx k with
          | none => []
          | some (r, i) => [(k, mkCsvLesson r i)] := by
  intro rows
  induction rows with
  | nil =>
    intro idx m
    rw [lessonsMapGo]
    split
    · rfl
    · rename_i hm
      rw [List.filter_eq_nil_iff.mpr]
      · rfl
      · intro p hp
        intro hpk
        exact hm (List.any_eq_true.mpr ⟨p, hp, hpk⟩)
  | cons r rs ih =>
    intro idx m
    rw [lessonsMapGo]
    rw [ih]
    by_cases hrk : rowKey r = k
    · subst hrk
      by_cases hmk : m.any (fun p => p.1 == rowKey r) = true
      · rw [if_pos hmk, if_pos hmk, if_pos hmk]
      · rw [if_neg hmk, if_neg hmk]
        rw [firstWithKey]
        rw [if_pos rfl]
        have hany : (m ++ [(rowKey r, mkCsvLesson r idx)]).any
            (fun p => p.1 == rowKey r) = true := by
          simp
        rw [if_pos hany, List.filter_append]
        rw [List.filter_eq_nil_iff.mpr, List.nil_append]
        · simp
        · intro p hp hpk
          exact hmk (List.any_eq_true.mpr ⟨p, hp, hpk⟩)
    · have hne : (rowKey r == k) = false := by
        simp [hrk]
      rw [firstWithKey, if_neg hrk]
      by_cases hmr : m.any (fun p => p.1 == rowKey r) = true
      · rw [if_pos hmr]
      · rw [if_neg hmr]
        have : (m ++ [(rowKey r, mkCsvLesson r idx)]).any (fun p => p.1 == k) =
            m.any (fun p => p.1 == k) := by
          simp [hne]
        rw [this]
        by_cases hmk : m.any (fun p => p.1 == k) = true
        · rw [if_pos hmk, if_pos hmk, List.filter_append]
          simp [hne]
        · rw [if_neg hmk, if_neg hmk]

/-- C6: the CSV lesson identity key is the first non-empty value among
alignment identifier, variant identifier and EdgeEx lesson id, and the
lesson map holds, for any key, exactly the lesson built from the first
row with that key (later rows with the key are ignored). -/
theorem c6_csv_dedup (rows : List CSVRow) (k : Str) :
    (∀ row : CSVRow, rowKey row =
        (if row.alignmentIdentifier ≠ [] then row.alignmentIdentifier
         else if row.variantIdentifier ≠ [] then row.variantIdentifier
         else row.edgeExLessonId)) ∧
      (buildLessonsMap rows).filter (fun p => p.1 == k) =
        (match firstWithKey rows 0 k with
         | none => []
         | some (r, i) => [(k, mkCsvLesson r i)]) := by
  constructor
  · intro row
    rw [rowKey, strOr, strOr]
    rcases ha : row.alignmentIdentifier with _ | _ <;>
      rcases hv : row.variantIdentifier with _ | _ <;> simp [List.isEmpty]
  · rw [buildLessonsMap, lessonsMapGo_filter]
    simp

/-- C9 counterexample: after an orphan Test (no Split or Unit), an EdgeEx
Lesson row clears the whole stack, so the following Quiz attaches to the
lesson (arena index 1) and the Test (arena index 0) keeps no children. -/
theorem c9_lesson_row_closes_orphan_test :
    typeAt (buildHierarchyTree Ex.c9rows).arena 0 = "Test".toList ∧
    typeAt (buildHierarchyTree Ex.c9rows).arena 1 = "EdgeEx Lesson".toList ∧
    typeAt (buildHierarchyTree Ex.c9rows).arena 2 = "Quiz".toList ∧
    ((buildHierarchyTree Ex.c9rows).arena.getD 0 default).children = [] ∧
    ((buildHierarchyTree Ex.c9rows).arena.getD 1 default).children = [2] := by
  decide

theorem countP_insertSorted (p : α → Bool) (le : α → α → Bool) (a : α) :
    ∀ l : List α, (insertSorted le a l).countP p =
      l.countP p + if p a then 1 else 0 := by
  intro l
  induction l with
  | nil => simp [insertSorted, List.countP_cons]
  | cons b bs ih =>
    rw [insertSorted]
    split
    · simp [List.countP_cons]
    · rw [List.countP_cons, List.countP_cons, ih]
      omega

theorem countP_stableSortBy (p : α → Bool) (le : α → α → Bool) (l : List α) :
    (stableSortBy le l).countP p = l.countP p := by
  induction l with
  | nil => rfl
  | cons b bs ih =>
    show (insertSorted le b (stableSortBy le bs)).countP p = _
    rw [countP_insertSorted, ih, List.countP_cons]

theorem countP_insertAt (p : α → Bool) (n : Nat) (a : α) (l : List α) :
    (insertAt n a l).countP p = l.countP p + if p a then 1 else 0 := by
  rw [insertAt, List.countP_append, List.countP_cons]
  conv_rhs => rw [← List.take_append_drop n l, List.countP_append]
  omega

theorem countP_insertAdded (p : LessonComparison → Bool)
    (comps : List LessonComparison) (x : LessonComparison) :
    (insertAdded comps x).countP p = comps.countP p + if p x then 1 else 0 := by
  rw [insertAdded]
  split
  · rw [List.countP_append, List.countP_cons]
    simp
  · rw [countP_insertAt]

theorem countP_foldInsert (p : LessonComparison → Bool) :
    ∀ (added comps : List LessonComparison),
      (added.foldl insertAdded comps).countP p =
        comps.countP p + added.countP p := by
  intro added
  induction added with
  | nil => intro comps; simp
  | cons x xs ih =>
    intro comps
    rw [List.foldl_cons, ih, countP_insertAdded, List.countP_cons]
    omega

theorem phase1_fst (C : List Lesson) :
    ∀ (A : List Lesson) (pr : List LessonComparison × List Str),
      (A.foldl (fun acc a =>
        match findMatchingLesson a C with
        | some m => (acc.1 ++ [anchorRowOf C a], addId acc.2 m.id)
        | none => (acc.1 ++ [anchorRowOf C a], acc.2)) pr).1 =
        pr.1 ++ A.map (anchorRowOf C) := by
  intro A
  induction A with
  | nil => intro pr; simp
  | cons a A ih =>
    intro pr
    rw [List.foldl_cons, List.map_cons]
    cases hf : findMatchingLesson a C with
    | some m => simpa using ih (pr.1 ++ [anchorRowOf C a], addId pr.2 m.id)
    | none => simpa using ih (pr.1 ++ [anchorRowOf C a], pr.2)

theorem length_filterMap_eq_countP (g : α → Option β) :
    ∀ l : List α, (l.filterMap g).length = l.countP (fun a => (g a).isSome) := by
  intro l
  induction l with
  | nil => rfl
  | cons a l ih =>
    rw [List.filterMap_cons, List.countP_cons]
    cases hg : g a with
    | some b => simp [ih, hg]
    | none => simp [ih, hg]

theorem anchorRow_status (C : List Lesson) (a : Lesson) :
    (isMatchedRow (anchorRowOf C a) = (findMatchingLesson a C).isSome) ∧
      (isRemovedRow (anchorRowOf C a) = !(findMatchingLesson a C).isSome) ∧
      isAddedRow (anchorRowOf C a) = false := by
  rw [anchorRowOf]
  cases hf : findMatchingLesson a C with
  | some m =>
    refine ⟨?_, ?_, ?_⟩ <;>
      · simp only [isMatchedRow, isRemovedRow, isAddedRow, Option.isSome]
        split <;> rfl
  | none => exact ⟨rfl, rfl, rfl⟩



theorem findMatchingLesson_mem (a : Lesson) (C : List Lesson) (m : Lesson)
    (h : findMatchingLesson a C = some m) : m ∈ C := by
  rw [findMatchingLesson] at h
  simp only [] at h
  rcases h1 : C.find? (fun l => l.id == a.id) with _ | l1
  · rw [h1] at h
    rcases h2 : C.find? (fun l => getBaseLessonId l.id == getBaseLessonId a.id)
      with _ | l2
    · rw [h2] at h
      exact List.mem_of_find?_eq_some h
    · rw [h2] at h
      injection h with h
      subst h
      exact List.mem_of_find?_eq_some h2
  · rw [h1] at h
    injection h with h
    subst h
    exact List.mem_of_find?_eq_some h1

theorem phase1_snd (C : List Lesson) :
    ∀ (A : List Lesson) (acc : List LessonComparison) (ids0 : List Str),
      (ids0 ++ matchedIdsOf A C).Nodup →
      (A.foldl (fun acc a =>
        match findMatchingLesson a C with
        | some m => (acc.1 ++ [anchorRowOf C a], addId acc.2 m.id)
        | none => (acc.1 ++ [anchorRowOf C a], acc.2)) (acc, ids0)).2 =
        ids0 ++ matchedIdsOf A C := by
  intro A
  induction A with
  | nil => intro acc ids0 _; simp [matchedIdsOf]
  | cons a A ih =>
    intro acc ids0 hnd
    rw [List.foldl_cons]
    cases hf : findMatchingLesson a C with
    | none =>
      have hm : matchedIdsOf (a :: A) C = matchedIdsOf A C := by
        simp [matchedIdsOf, List.filterMap_cons, hf]
      rw [hm] at hnd ⊢
      simpa using ih (acc ++ [anchorRowOf C a]) ids0 hnd
    | some m =>
      have hm : matchedIdsOf (a :: A) C = m.id :: matchedIdsOf A C := by
        simp [matchedIdsOf, List.filterMap_cons, hf]
      rw [hm] at hnd ⊢
      have hnotin : m.id ∉ ids0 := by
        rw [List.nodup_append] at hnd
        intro hin
        exact hnd.2.2 hin (List.mem_cons_self _ _)
      have haddId : addId ids0 m.id = ids0 ++ [m.id] := by
        rw [addId, if_neg hnotin]
      have hassoc : ids0 ++ m.id :: matchedIdsOf A C =
          (ids0 ++ [m.id]) ++ matchedIdsOf A C := by simp
      rw [hassoc] at hnd ⊢
      have := ih (acc ++ [anchorRowOf C a]) (ids0 ++ [m.id]) hnd
      simpa [haddId] using this


theorem countP_id_eq_zero (m : Str) (C : List Lesson)
    (h : m ∉ C.map Lesson.id) :
    C.countP (fun c => decide (c.id = m)) = 0 := by
  induction C with
  | nil => rfl
  | cons c C ih =>
    rw [List.map_cons] at h
    rw [List.countP_cons]
    have h1 : c.id ≠ m := fun he => h (by simp [he])
    have h2 : m ∉ C.map Lesson.id := fun hin => h (by simp [hin])
    simp [ih h2, h1]

theorem countP_id_eq_one (m : Str) (C : List Lesson)
    (hmem : m ∈ C.map Lesson.id) (hnd : (C.map Lesson.id).Nodup) :
    C.countP (fun c => decide (c.id = m)) = 1 := by
  induction C with
  | nil => simp at hmem
  | cons c C ih =>
    rw [List.map_cons] at hmem hnd
    rw [List.countP_cons]
    rcases List.mem_cons.mp hmem with he | hin
    · have hnot : m ∉ C.map Lesson.id := he ▸ (List.nodup_cons.mp hnd).1
      rw [countP_id_eq_zero m C hnot]
      simp [he.symm]
    · have hne : c.id ≠ m := by
        intro he
        exact (List.nodup_cons.mp hnd).1 (he ▸ hin)
      rw [ih hin (List.nodup_cons.mp hnd).2]
      simp [hne]

theorem countP_mem_split (m : Str) (M : List Str) (hnot : m ∉ M) :
    ∀ C : List Lesson,
      C.countP (fun c => decide (c.id ∈ m :: M)) =
        C.countP (fun c => decide (c.id = m)) +
          C.countP (fun c => decide (c.id ∈ M)) := by
  intro C
  induction C with
  | nil => rfl
  | cons c C ih =>
    rw [List.countP_cons, List.countP_cons, List.countP_cons, ih]
    by_cases h1 : c.id = m <;> by_cases h2 : c.id ∈ M
    · exact absurd (h1 ▸ h2) hnot
    · simp only [h1, h2, List.mem_cons, decide_eq_true_eq, eq_self_iff_true,
        if_true, if_false, decide_True, decide_False, hnot, or_false]
      simp [hnot]
      omega
    · simp [h1, h2, List.mem_cons]
      omega
    · simp [h1, h2, List.mem_cons]

theorem countP_mem_eq_length (M : List Str) (C : List Lesson)
    (hM : M.Nodup) (hsub : ∀ i ∈ M, i ∈ C.map Lesson.id)
    (hC : (C.map Lesson.id).Nodup) :
    C.countP (fun c => decide (c.id ∈ M)) = M.length := by
  induction M with
  | nil => simp
  | cons m M ih =>
    obtain ⟨hnot, hM'⟩ := List.nodup_cons.mp hM
    rw [countP_mem_split m M hnot C, countP_id_eq_one m C
      (hsub m (List.mem_cons_self _ _)) hC,
      ih hM' (fun i hi => hsub i (List.mem_cons_of_mem _ hi))]
    simp [Nat.add_comm]


theorem countP_ext (p q : α → Bool) (h : ∀ a, p a = q a) :
    ∀ l : List α, l.countP p = l.countP q := by
  intro l
  induction l with
  | nil => rfl
  | cons a l ih => rw [List.countP_cons, List.countP_cons, ih, h]

theorem countP_neg (p : α → Bool) :
    ∀ l : List α, l.countP (fun a => !p a) = l.length - l.countP p ∧
      l.countP p ≤ l.length := by
  intro l
  induction l with
  | nil => simp
  | cons a l ih =>
    rw [List.countP_cons, List.countP_cons]
    obtain ⟨h1, h2⟩ := ih
    constructor
    · rw [h1]
      cases hp : p a <;> simp [List.length_cons] <;> omega
    · cases hp : p a <;> simp [List.length_cons] <;> omega

theorem countP_anchor_pass (C A : List Lesson) :
    ((A.map (anchorRowOf C)).countP isMatchedRow = (matchedIdsOf A C).length) ∧
      ((A.map (anchorRowOf C)).countP isMatchedRow +
        (A.map (anchorRowOf C)).countP isRemovedRow = A.length) ∧
      (A.map (anchorRowOf C)).countP isAddedRow = 0 := by
  have hMm : (A.map (anchorRowOf C)).countP isMatchedRow =
      A.countP (fun a => (findMatchingLesson a C).isSome) := by
    rw [List.countP_map]
    exact countP_ext _ _ (fun a => (anchorRow_status C a).1) A
  have hRm : (A.map (anchorRowOf C)).countP isRemovedRow =
      A.countP (fun a => !(findMatchingLesson a C).isSome) := by
    rw [List.countP_map]
    exact countP_ext _ _ (fun a => (anchorRow_status C a).2.1) A
  refine ⟨?_, ?_, ?_⟩
  · rw [hMm, matchedIdsOf, length_filterMap_eq_countP]
    apply countP_ext
    intro a
    cases hf : findMatchingLesson a C <;> simp [hf]
  · rw [hMm, hRm]
    obtain ⟨h1, h2⟩ := countP_neg (fun a => (findMatchingLesson a C).isSome) A
    omega
  · rw [List.countP_map]
    rw [countP_ext (isAddedRow ∘ anchorRowOf C) (fun _ => false)
      (fun a => (anchorRow_status C a).2.2) A]
    simp

theorem phase2_counts (C : List Lesson) (ids : List Str) :
    ((phase2 C ids).countP isMatchedRow = 0) ∧
      ((phase2 C ids).countP isRemovedRow = 0) ∧
      ((phase2 C ids).countP isAddedRow =
        C.countP (fun c => !(decide (c.id ∈ ids)))) := by
  rw [phase2]
  induction C with
  | nil => simp
  | cons c C ih =>
    obtain ⟨ih1, ih2, ih3⟩ := ih
    rw [List.filterMap_cons, List.countP_cons]
    by_cases hc : c.id ∈ ids
    · simp only [hc, if_true, if_pos]
      refine ⟨ih1, ih2, ?_⟩
      rw [ih3]
      simp [hc]
    · simp only [hc, if_false, if_neg]
      rw [List.countP_cons, List.countP_cons, List.countP_cons]
      refine ⟨?_, ?_, ?_⟩
      · rw [ih1]; rfl
      · rw [ih2]; rfl
      · rw [ih3]
        simp [hc, isAddedRow]


/-- C3 (amended): matched plus removed rows always equal the anchor
count; matched plus added rows equal the compared count provided the
compared ids are pairwise distinct and no two anchor rows match compared
lessons sharing an id. -/
theorem c3_amended (A C : List Lesson) :
    ((generateLessonComparisons A C).countP isMatchedRow +
        (generateLessonComparisons A C).countP isRemovedRow = A.length) ∧
      ((C.map Lesson.id).Nodup → (matchedIdsOf A C).Nodup →
        (generateLessonComparisons A C).countP isMatchedRow +
            (generateLessonComparisons A C).countP isAddedRow = C.length) := by
  have hcount : ∀ p, (generateLessonComparisons A C).countP p =
      (A.map (anchorRowOf C)).countP p + (phase2 C (phase1 A C).2).countP p := by
    intro p
    show ((stableSortBy addLe (phase2 C (phase1 A C).2)).foldl insertAdded
      (sortedMatched A C)).countP p = _
    rw [countP_foldInsert, countP_stableSortBy, sortedMatched, countP_stableSortBy]
    rw [show (phase1 A C).1 = [] ++ A.map (anchorRowOf C) from phase1_fst C A ([], [])]
    simp
  obtain ⟨hm1, hm2, hm3⟩ := countP_anchor_pass C A
  obtain ⟨hp1, hp2, hp3⟩ := phase2_counts C (phase1 A C).2
  constructor
  · rw [hcount isMatchedRow, hcount isRemovedRow, hp1, hp2]
    omega
  · intro hC hM
    have hids : (phase1 A C).2 = matchedIdsOf A C := by
      have := phase1_snd C A [] [] (by simpa using hM)
      simpa [phase1] using this
    rw [hcount isMatchedRow, hcount isAddedRow, hp1, hm3, hp3, hids, hm1]
    have hsub : ∀ i ∈ matchedIdsOf A C, i ∈ C.map Lesson.id := by
      intro i hi
      rw [matchedIdsOf] at hi
      obtain ⟨a, ha, hg⟩ := List.mem_filterMap.mp hi
      cases hf : findMatchingLesson a C with
      | none => rw [hf] at hg; simp at hg
      | some m =>
        rw [hf] at hg
        have hgi : m.id = i := by simpa using hg
        subst hgi
        exact List.mem_map_of_mem Lesson.id (findMatchingLesson_mem a C m hf)
    obtain ⟨hneg, hle⟩ := countP_neg (fun c => decide (c.id ∈ matchedIdsOf A C)) C
    rw [countP_mem_eq_length (matchedIdsOf A C) C hM hsub hC] at hneg hle
    rw [hneg]
    omega


theorem c3_amended_witness :
    ((generateLessonComparisons c3wA c3wC).countP isMatchedRow +
        (generateLessonComparisons c3wA c3wC).countP isRemovedRow = c3wA.length) ∧
      (generateLessonComparisons c3wA c3wC).countP isMatchedRow +
          (generateLessonComparisons c3wA c3wC).countP isAddedRow = c3wC.length :=
  ⟨(c3_amended c3wA c3wC).1, (c3_amended c3wA c3wC).2 (by decide) (by decide)⟩

theorem insertAdded_eq_insertRec (x : LessonComparison) :
    ∀ comps : List LessonComparison, insertAdded comps x = insertRec x comps := by
  intro comps
  induction comps with
  | nil => rfl
  | cons b bs ih =>
    rw [insertAdded, insertRec, List.findIdx?_cons]
    cases hpb : (match b.comparedOrder with
        | none => false
        | some o => decide (x.comparedOrder.getD 0 < o)) with
    | true => simp [insertAt]
    | false =>
      simp only [Bool.false_eq_true, if_false]
      rw [List.findIdx?_succ, ← ih, insertAdded]
      cases hfi : (List.findIdx? (fun comp =>
          match comp.comparedOrder with
          | none => false
          | some o => decide (x.comparedOrder.getD 0 < o)) bs) with
      | none => rfl
      | some i => rfl

theorem comparedOrds_cons (b : LessonComparison) (bs : List LessonComparison) :
    comparedOrds (b :: bs) =
      match b.comparedOrder with
      | none => comparedOrds bs
      | some o => o :: comparedOrds bs := by
  rw [comparedOrds, List.filterMap_cons]
  cases b.comparedOrder <;> rfl

theorem comparedOrds_insertRec_none (x : LessonComparison)
    (hx : x.comparedOrder = none) :
    ∀ l, comparedOrds (insertRec x l) = comparedOrds l := by
  intro l
  induction l with
  | nil => simp [insertRec, comparedOrds, hx]
  | cons b bs ih =>
    rw [insertRec]
    split
    · rw [comparedOrds_cons x (b :: bs), hx]
    · rw [comparedOrds_cons, comparedOrds_cons, ih]

theorem comparedOrds_insertRec_mem (x : LessonComparison) (o : Int)
    (hx : x.comparedOrder = some o) :
    ∀ l z, z ∈ comparedOrds (insertRec x l) → z ∈ comparedOrds l ∨ z = o := by
  intro l
  induction l with
  | nil =>
    intro z hz
    right
    simpa [insertRec, comparedOrds, hx] using hz
  | cons b bs ih =>
    intro z hz
    rw [insertRec] at hz
    rcases hsp : (match b.comparedOrder with
        | none => false
        | some ob => decide (x.comparedOrder.getD 0 < ob)) with _ | _
    · rw [hsp] at hz
      simp only [Bool.false_eq_true, if_false] at hz
      rw [comparedOrds_cons] at hz
      rcases hb : b.comparedOrder with _ | ob
      · rw [hb] at hz
        rcases ih z hz with h | h
        · left; rw [comparedOrds_cons, hb]; exact h
        · right; exact h
      · rw [hb] at hz
        rcases List.mem_cons.mp hz with h | h
        · left; rw [comparedOrds_cons, hb, h]; exact List.mem_cons_self _ _
        · rcases ih z h with h2 | h2
          · left; rw [comparedOrds_cons, hb]; exact List.mem_cons_of_mem _ h2
          · right; exact h2
    · rw [hsp] at hz
      simp only [if_true] at hz
      rw [comparedOrds_cons x (b :: bs), hx] at hz
      rcases List.mem_cons.mp hz with h | h
      · right; exact h
      · left; exact h


theorem insertRec_mono (x : LessonComparison) :
    ∀ l, MonoOrds l → MonoOrds (insertRec x l) := by
  intro l
  cases hx : x.comparedOrder with
  | none =>
    intro hl
    rw [MonoOrds, comparedOrds_insertRec_none x hx l]
    exact hl
  | some o =>
    induction l with
    | nil =>
      intro _
      rw [MonoOrds]
      simp [insertRec, comparedOrds, hx]
    | cons b bs ih =>
      intro hl
      rw [insertRec]
      rcases hb : b.comparedOrder with _ | ob
      · show MonoOrds (b :: insertRec x bs)
        rw [MonoOrds, comparedOrds_cons, hb]
        rw [MonoOrds, comparedOrds_cons, hb] at hl
        exact ih hl
      · show MonoOrds (if decide (x.comparedOrder.getD 0 < ob) = true
            then x :: b :: bs else b :: insertRec x bs)
        rw [hx]
        by_cases hlt : o < ob
        · rw [if_pos (by simp [hlt])]
          rw [MonoOrds, comparedOrds_cons, hx, comparedOrds_cons, hb]
          rw [MonoOrds, comparedOrds_cons, hb] at hl
          have hl2 : List.Pairwise (fun z1 z2 => z1 ≤ z2) (ob :: comparedOrds bs) := hl
          refine List.Pairwise.cons ?_ hl2
          intro z hz
          rcases List.mem_cons.mp hz with h | h
          · subst h; omega
          · have := List.rel_of_pairwise_cons hl2 h
            omega
        · rw [if_neg (by simp [hlt])]
          rw [MonoOrds, comparedOrds_cons, hb]
          rw [MonoOrds, comparedOrds_cons, hb] at hl
          have hl2 : List.Pairwise (fun z1 z2 => z1 ≤ z2) (ob :: comparedOrds bs) := hl
          refine List.Pairwise.cons ?_ (ih (List.pairwise_cons.mp hl2).2)
          intro z hz
          rcases comparedOrds_insertRec_mem x o hx bs z hz with h | h
          · exact List.rel_of_pairwise_cons hl2 h
          · subst h; omega

theorem foldl_insertAdded_mono :
    ∀ (added l : List LessonComparison), MonoOrds l →
      MonoOrds (added.foldl insertAdded l) := by
  intro added
  induction added with
  | nil => intro l hl; exact hl
  | cons x xs ih =>
    intro l hl
    rw [List.foldl_cons, insertAdded_eq_insertRec]
    exact ih _ (insertRec_mono x l hl)

/-- C4 (amended): each added row is inserted immediately before the first
entry whose non-null compared order exceeds its own (appended when none
exists), and this splicing keeps the displayed compared-side order
monotonic whenever the sorted matched rows are already compared-order
monotonic. -/
theorem c4_amended (A C : List Lesson)
    (h : MonoOrds (sortedMatched A C)) :
    (∀ (comps : List LessonComparison) (x : LessonComparison),
        insertAdded comps x = insertRec x comps) ∧
      MonoOrds (generateLessonComparisons A C) := by
  refine ⟨fun comps x => insertAdded_eq_insertRec x comps, ?_⟩
  exact foldl_insertAdded_mono _ _ h


theorem c4_amended_witness :
    MonoOrds (generateLessonComparisons c4wA c4wC) :=
  (c4_amended c4wA c4wC (by
    rw [MonoOrds, show comparedOrds (sortedMatched c4wA c4wC) = [1] from by decide]
    exact List.pairwise_singleton _ _)).2

theorem digitChar_toNat (d : Nat) (h : d < 10) : (digitChar d).toNat = d + 48 := by
  interval_cases d <;> decide

theorem decVal_append_digit (l : Str) (c : Char) :
    decVal (l ++ [c]) = decVal l * 10 + (c.toNat - 48) := by
  rw [decVal, List.foldl_append]
  rfl

theorem decVal_natDecGo : ∀ (fuel n : Nat), n + 1 ≤ fuel →
    decVal (natDecGo fuel n) = n := by
  intro fuel
  induction fuel with
  | zero => intro n h; omega
  | succ fuel ih =>
    intro n h
    rw [natDecGo]
    by_cases hn : n < 10
    · rw [if_pos hn]
      show decVal [digitChar n] = n
      rw [show ([digitChar n] : Str) = [] ++ [digitChar n] from rfl,
        decVal_append_digit, digitChar_toNat n hn]
      simp [decVal]
    · rw [if_neg hn]
      rw [decVal_append_digit, digitChar_toNat (n % 10) (Nat.mod_lt n (by omega))]
      have hdiv : n / 10 < n := Nat.div_lt_self (by omega) (by omega)
      rw [ih (n / 10) (by omega)]
      omega

theorem natDec_inj (n m : Nat) (h : natDec n = natDec m) : n = m := by
  have h1 := decVal_natDecGo (n + 1) n (by omega)
  have h2 := decVal_natDecGo (m + 1) m (by omega)
  rw [natDec, natDec] at h
  rw [← h1, ← h2, h]

theorem natDecGo_no_dash : ∀ (fuel n : Nat) (c : Char),
    c ∈ natDecGo fuel n → c ≠ '-' := by
  intro fuel
  induction fuel with
  | zero => intro n c hc; simp [natDecGo] at hc
  | succ fuel ih =>
    intro n c hc
    rw [natDecGo] at hc
    by_cases hn : n < 10
    · rw [if_pos hn] at hc
      rcases List.mem_singleton.mp hc with rfl
      intro hd
      have := digitChar_toNat n hn
      rw [hd] at this
      simp at this
    · rw [if_neg hn] at hc
      rcases List.mem_append.mp hc with h | h
      · exact ih (n / 10) c h
      · rcases List.mem_singleton.mp h with rfl
        intro hd
        have := digitChar_toNat (n % 10) (Nat.mod_lt n (by omega))
        rw [hd] at this
        simp at this

theorem takeWhile_append_stop (p : Char → Bool) (d : Char) (v : Str)
    (hd : p d = false) :
    ∀ u : Str, (∀ c ∈ u, p c = true) → (u ++ d :: v).takeWhile p = u := by
  intro u
  induction u with
  | nil => intro _; simp [List.takeWhile, hd]
  | cons a u ih =>
    intro hu
    rw [List.cons_append, List.takeWhile_cons, hu a (List.mem_cons_self _ _)]
    simp only [if_true]
    rw [ih (fun c hc => hu c (List.mem_cons_of_mem _ hc))]

theorem append_dash_natDec_inj (a b : Str) (n m : Nat)
    (h : a ++ '-' :: natDec n = b ++ '-' :: natDec m) : n = m := by
  have hrev := congrArg List.reverse h
  rw [List.reverse_append, List.reverse_append] at hrev
  simp only [List.reverse_cons] at hrev
  have hrw : ∀ (x : Str) (k : Nat), (natDec k).reverse ++ ['-'] ++ x.reverse =
      (natDec k).reverse ++ '-' :: x.reverse := by
    intro x k
    simp
  rw [hrw a n, hrw b m] at hrev
  have htw := congrArg (List.takeWhile (fun c => !(c == '-'))) hrev
  rw [takeWhile_append_stop _ '-' a.reverse (by simp) (natDec n).reverse
      (fun c hc => by
        simpa using natDecGo_no_dash (n + 1) n c (List.mem_reverse.mp hc)),
    takeWhile_append_stop _ '-' b.reverse (by simp) (natDec m).reverse
      (fun c hc => by
        simpa using natDecGo_no_dash (m + 1) m c (List.mem_reverse.mp hc))] at htw
  exact natDec_inj n m (List.reverse_injective htw)


theorem synthId_position_inj (t ty t2 ty2 : Str) (n m : Nat)
    (hnm : n ≠ m) :
    synthId2 t ty n ≠ synthId2 t2 ty2 m ∧ synthId2 t ty n ≠ synthId1 m ∧
      synthId1 n ≠ synthId1 m := by
  refine ⟨?_, ?_, ?_⟩ <;> intro h
  · rw [synthId2, synthId2,
      show t ++ '-' :: ty ++ '-' :: natDec n = (t ++ '-' :: ty) ++ '-' :: natDec n
        from by simp,
      show t2 ++ '-' :: ty2 ++ '-' :: natDec m = (t2 ++ '-' :: ty2) ++ '-' :: natDec m
        from by simp] at h
    exact hnm (append_dash_natDec_inj _ _ n m h)
  · rw [synthId2, synthId1,
      show t ++ '-' :: ty ++ '-' :: natDec n = (t ++ '-' :: ty) ++ '-' :: natDec n
        from by simp,
      show ('i' :: 't' :: 'e' :: 'm' :: ['-']) ++ natDec m =
        ('i' :: 't' :: 'e' :: ['m']) ++ '-' :: natDec m from by simp] at h
    exact hnm (append_dash_natDec_inj _ _ n m h)
  · rw [synthId1, synthId1,
      show ('i' :: 't' :: 'e' :: 'm' :: ['-']) ++ natDec n =
        ('i' :: 't' :: 'e' :: ['m']) ++ '-' :: natDec n from by simp,
      show ('i' :: 't' :: 'e' :: 'm' :: ['-']) ++ natDec m =
        ('i' :: 't' :: 'e' :: ['m']) ++ '-' :: natDec m from by simp] at h
    exact hnm (append_dash_natDec_inj _ _ n m h)

/-- C8 (amended): within one parse, ids synthesized for 1- and 2-field
rows encode the row's position after the final hyphen, so any two rows
carrying synthesized ids for distinct positions have distinct ids (they
may still collide with a literal id from a 3-field row). -/
theorem c8_amended (content : Str) (rows : List TextRow)
    (hok : parseText content = Except.ok rows) (i j : Nat)
    (hi : i < rows.length) (hj : j < rows.length) (hij : i ≠ j)
    (hsi : Synthesized (rows.get ⟨i, hi⟩) i)
    (hsj : Synthesized (rows.get ⟨j, hj⟩) j) :
    (rows.get ⟨i, hi⟩).id ≠ (rows.get ⟨j, hj⟩).id := by
  intro heq
  rcases hsi with h1 | h1 <;> rcases hsj with h2 | h2 <;>
    rw [h1, h2] at heq
  · exact (synthId_position_inj _ _ _ _ i j hij).1 heq
  · exact (synthId_position_inj _ _ [] [] i j hij).2.1 heq
  · exact (synthId_position_inj _ _ [] [] j i (Ne.symm hij)).2.1 heq.symm
  · exact (synthId_position_inj [] [] [] [] i j hij).2.2 heq


theorem c8_amended_witness :
    (CourseComp.c8wRows.get ⟨0, by decide⟩).id ≠
      (CourseComp.c8wRows.get ⟨1, by decide⟩).id :=
  c8_amended "A\tQuiz\nB\tQuiz".toList c8wRows (by decide) 0 1 (by decide)
    (by decide) (by decide) (Or.inl (by decide)) (Or.inl (by decide))


theorem mem_eraseFirstP (p : Nat → Bool) :
    ∀ (l : List Nat) (x : Nat), x ∈ l → p x = false → x ∈ eraseFirstP p l := by
  intro l
  induction l with
  | nil => intro x hx _; simp at hx
  | cons b bs ih =>
    intro x hx hpx
    rw [eraseFirstP, List.findIdx?_cons]
    cases hpb : p b with
    | true =>
      simp only [if_pos rfl]
      have hxb : x ≠ b := fun he => by rw [he, hpb] at hpx; cases hpx
      rcases List.mem_cons.mp hx with h | h
      · exact absurd h hxb
      · simpa using h
    | false =>
      simp only [Bool.false_eq_true, if_false]
      rw [List.findIdx?_succ]
      cases hfi : List.findIdx? p bs with
      | none => simpa using hx
      | some i =>
        show x ∈ (b :: bs).take (i + 1) ++ (b :: bs).drop (i + 1 + 1)
        rw [List.take_succ_cons, List.drop_succ_cons, List.cons_append]
        rcases List.mem_cons.mp hx with h | h
        · exact h ▸ List.mem_cons_self _ _
        · refine List.mem_cons_of_mem _ ?_
          have := ih x h hpx
          rw [eraseFirstP, hfi] at this
          exact this

theorem getD_append_left_tnode (l l2 : List TNode) (n : Nat) (h : n < l.length) :
    (l ++ l2).getD n default = l.getD n default := by
  rw [List.getD_eq_getElem?_getD, List.getD_eq_getElem?_getD,
    List.getElem?_append_left h]

theorem getD_set_self_tnode (l : List TNode) (n : Nat) (v : TNode)
    (h : n < l.length) :
    (l.set n v).getD n default = v := by
  rw [List.getD_eq_getElem?_getD, List.getElem?_set_self]
  · rfl
  · exact h


/-- C9 (amended): with a Split or Unit open in the context stack, an
EdgeEx Lesson row preserves any Test in the stack (it removes only a
prior lesson); an Activity/Quiz row attaches to the first Test in the
stack; and rows other than Split, Unit, EdgeEx Lesson and Test never
change the stack.  (Without an open Split/Unit, an orphan Test IS closed
by an EdgeEx Lesson row, which clears the stack.) -/
theorem c9_amended (s : BState) (row : TextRow) :
    ((trimStr row.type = "EdgeEx Lesson".toList →
      (∃ i ∈ s.stack, typeAt s.arena i = "Unit".toList ∨
        typeAt s.arena i = "Split".toList) →
      ∀ t ∈ s.stack, typeAt s.arena t = "Test".toList →
        t ∈ (buildStep s row).stack)) ∧
    ((trimStr row.type = "Activity".toList ∨ trimStr row.type = "Quiz".toList) →
      ∀ t, s.stack.find? (fun i => typeAt s.arena i == "Test".toList) = some t →
      t < s.arena.length →
      ((buildStep s row).arena.getD t default).children =
        (s.arena.getD t default).children ++ [s.arena.length]) ∧
    (trimStr row.type ≠ "Split".toList → trimStr row.type ≠ "Unit".toList →
      trimStr row.type ≠ "EdgeEx Lesson".toList →
      trimStr row.type ≠ "Test".toList →
      (buildStep s row).stack = s.stack) := by
  refine ⟨?_, ?_, ?_⟩
  · intro hty hsu t ht htest
    rw [buildStep]
    simp only []
    rw [if_neg (by rw [hty]; decide), if_neg (by rw [hty]; decide), if_pos hty]
    cases hfu : s.stack.find? (fun i => typeAt s.arena i == "Unit".toList) with
    | some p =>
      show t ∈ eraseFirstP (fun i => typeAt s.arena i == "EdgeEx Lesson".toList)
        s.stack ++ [s.arena.length]
      exact List.mem_append_left _
        (mem_eraseFirstP _ s.stack t ht (by rw [htest]; decide))
    | none =>
      cases hfs : s.stack.find? (fun i => typeAt s.arena i == "Split".toList) with
      | some p =>
        show t ∈ eraseFirstP (fun i => typeAt s.arena i == "EdgeEx Lesson".toList)
          s.stack ++ [s.arena.length]
        exact List.mem_append_left _
          (mem_eraseFirstP _ s.stack t ht (by rw [htest]; decide))
      | none =>
        exfalso
        obtain ⟨i, hi, hu | hs2⟩ := hsu
        · exact (List.find?_eq_none.mp hfu) i hi (by simp [hu])
        · exact (List.find?_eq_none.mp hfs) i hi (by simp [hs2])
  · intro hty t hfind htlt
    rw [buildStep]
    simp only []
    have hne1 : trimStr row.type ≠ "Split".toList := by
      rcases hty with h | h <;> rw [h] <;> decide
    have hne2 : trimStr row.type ≠ "Unit".toList := by
      rcases hty with h | h <;> rw [h] <;> decide
    have hne3 : trimStr row.type ≠ "EdgeEx Lesson".toList := by
      rcases hty with h | h <;> rw [h] <;> decide
    have hne4 : trimStr row.type ≠ "Test".toList := by
      rcases hty with h | h <;> rw [h] <;> decide
    have hne5 : trimStr row.type ≠ "Exam".toList := by
      rcases hty with h | h <;> rw [h] <;> decide
    have hor : (trimStr row.type = "Activity".toList ∨
        trimStr row.type = "Quiz".toList) := hty
    rw [if_neg hne1, if_neg hne2, if_neg hne3, if_neg hne4, if_neg hne5,
      if_pos (by rcases hor with h | h <;> simp [h])]
    rw [show (s.stack.find? (fun i => typeAt s.arena i == "Test".toList)).orElse
        (fun _ => s.stack.find? (fun i => typeAt s.arena i == "EdgeEx Lesson".toList)) =
        some t from by rw [hfind]; rfl]
    simp only []
    rw [attachChild]
    rw [getD_set_self_tnode _ _ _ (by rw [List.length_append]; omega)]
    rw [getD_append_left_tnode _ _ _ htlt]
  · intro h1 h2 h3 h4
    rw [buildStep]
    simp only []
    rw [if_neg h1, if_neg h2, if_neg h3, if_neg h4]
    split
    · split <;> rfl
    · split
      · split
        · rfl
        · split <;> rfl
      · split <;> rfl


theorem c9_amended_witness :
    (2 ∈ (buildStep c9wS ⟨"L".toList, "EdgeEx Lesson".toList, "l1".toList⟩).stack) ∧
      (((buildStep c9wS ⟨"Q".toList, "Quiz".toList, "q1".toList⟩).arena.getD 2
          default).children = (c9wS.arena.getD 2 default).children ++
            [c9wS.arena.length]) ∧
      (buildStep c9wS ⟨"E".toList, "Exam".toList, "e1".toList⟩).stack = c9wS.stack :=
  ⟨(c9_amended c9wS ⟨"L".toList, "EdgeEx Lesson".toList, "l1".toList⟩).1 (by decide)
      (by decide) 2 (by decide) (by decide),
    (c9_amended c9wS ⟨"Q".toList, "Quiz".toList, "q1".toList⟩).2.1
      (Or.inr (by decide)) 2 (by decide) (by decide),
    (c9_amended c9wS ⟨"E".toList, "Exam".toList, "e1".toList⟩).2.2 (by decide)
      (by decide) (by decide) (by decide)⟩

end CourseComp
